import Mathlib

/-!
Verification development for the `ai-angular-smoke` repository.

The repository contains three parts that matter here:

* `tools/ensure-specs-for-ts.mjs` — a placeholder-spec scaffolding tool that
  walks `src/**/*.ts` (minus an ignore list), and for every matched source
  file whose `.spec.ts` sibling does not exist, creates that sibling with a
  one-line placeholder comment.
* `src/app/homepage/homepage.component.ts` — an Angular component whose only
  method with logic is `isDiscounted`.
* the coverage-gated test synthesis loop (`tools/ai_testgen.py`), whose
  implementation is not part of the source tree given here; it is modelled
  from the specification document (coverage report, deficiency selector,
  iteration controller, validator, error taxonomy).

The filesystem is modelled as an association list from path to content in
which the first matching entry wins; a write prepends an entry, so it
shadows (overwrites) any older entry for the same path.

String manipulation is modelled over `String.data` (lists of characters) so
that every definition evaluates by kernel reduction on concrete inputs.
-/

namespace AngularSmoke

/-- A filesystem snapshot: list of (path, content) pairs, first match wins. -/
abbrev FS : Type := List (String × String)

/-- Look up the content stored at path `p` (first matching entry). -/
def fsLookup (fs : FS) (p : String) : Option String :=
  (List.find? (fun e => e.1 == p) fs).map (fun e => e.2)

/-- Write content `c` at path `p`, shadowing any previous entry (overwrite). -/
def fsWrite (fs : FS) (p c : String) : FS :=
  (p, c) :: fs

/-- The last `n` characters of a character list. -/
def takeLast (l : List Char) (n : Nat) : List Char :=
  l.drop (l.length - n)

/-- `strEndsWith s t` holds when `s` ends with the suffix `t`
(kernel-computable counterpart of `String.endsWith`). -/
def strEndsWith (s t : String) : Bool :=
  takeLast s.data t.data.length == t.data

/-- `strStartsWith s t` holds when `s` starts with `t`
(kernel-computable counterpart of `String.startsWith`). -/
def strStartsWith (s t : String) : Bool :=
  s.data.take t.data.length == t.data

/-- Split a character list at every occurrence of the separator `c`.
The result is always nonempty. -/
def splitOnChar (c : Char) : List Char → List (List Char)
  | [] => [[]]
  | a :: rest =>
    let r := splitOnChar c rest
    if a == c then [] :: r
    else (a :: r.headD []) :: r.tail

/-- The path components of a path string (separator `/`). -/
def pathSegs (f : String) : List String :=
  (splitOnChar '/' f.data).map String.mk

/-- The last path component of a path string. -/
def baseName (f : String) : String :=
  String.mk ((splitOnChar '/' f.data).getLastD [])

/-- Embeds `file.replace(/\.ts$/, ".spec.ts")` from
`tools/ensure-specs-for-ts.mjs`: replace a trailing `.ts` with `.spec.ts`;
a string without the suffix is returned unchanged (the regex does not match). -/
def specPath (f : String) : String :=
  if strEndsWith f ".ts" then f.dropRight 3 ++ ".spec.ts" else f

/-- Embeds the `TS_GLOB = "src/**/*.ts"` pattern of
`tools/ensure-specs-for-ts.mjs`: a path matches when it lies under `src/`
and ends in `.ts`. -/
def matchesTsGlob (f : String) : Bool :=
  strStartsWith f "src/" && strEndsWith f ".ts"

/-- Embeds the `IGNORE` pattern list of `tools/ensure-specs-for-ts.mjs`:
`**/*.spec.ts`, `**/*.d.ts`, `**/node_modules/**`, `**/dist/**`,
`**/coverage/**`, `**/main.ts`, `**/polyfills.ts`, `**/test.ts`,
`**/environment*.ts`, `**/*.routes.ts`, `**/*.config.ts`, `**/*.module.ts`.
Directory patterns are read as "has that path component"; `**/name.ts`
patterns as "base name is `name.ts`"; `**/*suffix` patterns as
"ends with `suffix`". -/
def matchesIgnore (f : String) : Bool :=
  strEndsWith f ".spec.ts" || strEndsWith f ".d.ts" ||
  (pathSegs f).contains "node_modules" ||
  (pathSegs f).contains "dist" ||
  (pathSegs f).contains "coverage" ||
  baseName f == "main.ts" || baseName f == "polyfills.ts" ||
  baseName f == "test.ts" ||
  (strStartsWith (baseName f) "environment" && strEndsWith f ".ts") ||
  strEndsWith f ".routes.ts" || strEndsWith f ".config.ts" ||
  strEndsWith f ".module.ts"

/-- Embeds `globSync(TS_GLOB, { ignore: IGNORE })` from
`tools/ensure-specs-for-ts.mjs`, as a filter over a candidate universe of
paths: keep exactly the paths matching the glob and not matching the ignore
list. -/
def globFiles (paths : List String) : List String :=
  paths.filter (fun f => matchesTsGlob f && !matchesIgnore f)

/-- The placeholder content written by `tools/ensure-specs-for-ts.mjs`:
`// Auto-created placeholder spec for <file>\n`. -/
def placeholder (f : String) : String :=
  "// Auto-created placeholder spec for " ++ f ++ "\n"

/-- One iteration of the top-level `for` loop of
`tools/ensure-specs-for-ts.mjs`: compute the spec path, skip when it exists
(`existsSync`), otherwise write the placeholder and bump `created`.
`mkdirSync` only creates directories and has no effect on the file model. -/
def ensureStep (st : FS × Nat) (file : String) : FS × Nat :=
  let spec := specPath file
  if (fsLookup st.1 spec).isSome then st
  else (fsWrite st.1 spec (placeholder file), st.2 + 1)

/-- The full `for` loop of `tools/ensure-specs-for-ts.mjs` over a file list,
starting from filesystem `fs` and `created = 0`. -/
def ensureSpecsRun (fs : FS) (files : List String) : FS × Nat :=
  files.foldl ensureStep (fs, 0)

/-- The whole tool `tools/ensure-specs-for-ts.mjs`: glob, then the loop. -/
def ensureSpecsTool (fs : FS) (paths : List String) : FS × Nat :=
  ensureSpecsRun fs (globFiles paths)

/-- The `Product` type of `src/app/homepage/homepage.component.ts`. -/
structure Product where
  id : Int
  name : String
  price : ℚ
  originalPrice : Option ℚ
  rating : ℚ
  reviews : Nat
  tag : String
  category : String
  description : String
  swatches : List String
  gradient : String
  badge : Option String

/-- Embeds `HomepageComponent.isDiscounted`:
`return !!p.originalPrice && p.originalPrice > p.price;`.
`!!x` on an optional number is `false` for `undefined` and for `0`. -/
def isDiscounted (p : Product) : Bool :=
  match p.originalPrice with
  | none => false
  | some v => decide (v ≠ 0) && decide (p.price < v)

/-- Modelled from the spec: `tools/ai_testgen.py` is not in the given source
tree. A `CoverageRecord` holds per-file coverage facts: path, lines covered,
lines total, branches covered, branches total (spec section 3). -/
structure CoverageRecord where
  path : String
  linesCovered : Nat
  linesTotal : Nat
  branchesCovered : Nat
  branchesTotal : Nat
deriving DecidableEq, Repr

/-- Modelled from the spec: the derived metric
`line_pct = lines_covered/lines_total*100`, `0` when `lines_total = 0`
(spec section 3), as a rational number. -/
def linePctQ (r : CoverageRecord) : ℚ :=
  if r.linesTotal = 0 then 0
  else (r.linesCovered : ℚ) / (r.linesTotal : ℚ) * 100

/-- Modelled from the spec: the branch percentage
`branches_covered/branches_total*100`; a record with no branches at all is
treated as fully covered (`100`), following the spec's
"treated as fully covered/excluded" convention for empty denominators. -/
def branchPctQ (r : CoverageRecord) : ℚ :=
  if r.branchesTotal = 0 then 100
  else (r.branchesCovered : ℚ) / (r.branchesTotal : ℚ) * 100

/-- Modelled from the spec: the test `line_pct < T` for an integer percent
threshold `T` (the CLI takes `--min <percent>`), computed in exact integer
arithmetic by cross-multiplication. -/
def linePctLt (r : CoverageRecord) (T : Nat) : Bool :=
  if r.linesTotal = 0 then decide (0 < T)
  else decide (r.linesCovered * 100 < T * r.linesTotal)

/-- Modelled from the spec: the test `branch_pct < T`, computed in exact
integer arithmetic by cross-multiplication. -/
def branchPctLt (r : CoverageRecord) (T : Nat) : Bool :=
  if r.branchesTotal = 0 then decide (100 < T)
  else decide (r.branchesCovered * 100 < T * r.branchesTotal)

/-- Modelled from the spec: a record qualifies as deficient when
`line_pct < threshold` or `branch_pct < threshold` (spec section 4.2),
except that a file whose record has `lines_total = 0` is never flagged as
deficient — it is "treated as fully covered/excluded"
(spec sections 3 and 8). -/
def isDeficientRecord (T : Nat) (r : CoverageRecord) : Bool :=
  decide (r.linesTotal ≠ 0) && (linePctLt r T || branchPctLt r T)

/-- Modelled from the spec: a record clears the threshold when it does not
qualify as deficient (used by the iteration controller to accept a `Pass`). -/
def clearsThreshold (T : Nat) (r : CoverageRecord) : Bool :=
  !(isDeficientRecord T r)

/-- Modelled from the spec: a `Deficiency` is a file path plus its current
coverage record (spec section 3). -/
structure Deficiency where
  path : String
  record : CoverageRecord
deriving DecidableEq, Repr

/-- Modelled from the spec: the record synthesized for a file absent from
the coverage report — 0% coverage, the degenerate case of a fully
under-covered file (spec section 4.2). -/
def zeroRecord (p : String) : CoverageRecord :=
  ⟨p, 0, 0, 0, 0⟩

/-- Numerator of the line-coverage fraction used as the ordering key
(`0` for a record with `lines_total = 0`, whose percentage is `0`). -/
def pctNum (r : CoverageRecord) : Nat :=
  if r.linesTotal = 0 then 0 else r.linesCovered * 100

/-- Denominator of the line-coverage fraction used as the ordering key
(always positive). -/
def pctDen (r : CoverageRecord) : Nat :=
  if r.linesTotal = 0 then 1 else r.linesTotal

/-- The ordering key of a deficiency as a rational: its coverage
percentage. -/
def keyQ (d : Deficiency) : ℚ :=
  (pctNum d.record : ℚ) / (pctDen d.record : ℚ)

/-- Kernel-computable lexicographic comparison on character lists by code
point. -/
def charListLe : List Char → List Char → Bool
  | [], _ => true
  | _ :: _, [] => false
  | a :: as, b :: bs =>
    if a.toNat < b.toNat then true
    else if b.toNat < a.toNat then false
    else charListLe as bs

/-- Kernel-computable total order on strings (lexicographic by code point),
used as the deterministic path tiebreak. -/
def strLe (a b : String) : Bool :=
  charListLe a.data b.data

/-- Modelled from the spec: the deterministic deficiency order — ascending
coverage percentage, path as tiebreak (spec section 3). Percentages are
compared exactly by cross-multiplication. -/
def defLE (a b : Deficiency) : Bool :=
  let x := pctNum a.record * pctDen b.record
  let y := pctNum b.record * pctDen a.record
  if x = y then strLe a.path b.path else decide (x < y)

/-- Does the report contain a record for path `p`? -/
def reportHasPath (R : List CoverageRecord) (p : String) : Bool :=
  R.any (fun r => r.path == p)

/-- Modelled from the spec: the Deficiency Selector (spec section 4.2,
implemented by the absent `tools/ai_testgen.py`): keep the report records
that qualify as deficient, add a synthesized 0% deficiency for every source
file absent from the report, and sort deterministically by ascending
coverage percentage with path tiebreak. -/
def selectDeficiencies (sources : List String) (R : List CoverageRecord)
    (T : Nat) : List Deficiency :=
  let present := (R.filter (fun r => isDeficientRecord T r)).map
    (fun r => Deficiency.mk r.path r)
  let absent := (sources.filter (fun s => !(reportHasPath R s))).map
    (fun s => Deficiency.mk s (zeroRecord s))
  (present ++ absent).mergeSort defLE

/-- Modelled from the spec: outcome of the Synthesis Client (spec section
4.4, implemented by the absent `tools/ai_testgen.py`) — backend unreachable,
no usable code, or raw candidate text. -/
inductive SynthResult where
  | unavailable : SynthResult
  | empty : SynthResult
  | ok : String → SynthResult

/-- Modelled from the spec: outcome of the Post-Processor (spec section
4.5) — structural sanity failure (`CandidateMalformed`) or the corrected
candidate text. -/
inductive PostResult where
  | malformed : PostResult
  | ok : String → PostResult

/-- Modelled from the spec: outcome of the toolchain invocation inside the
Validator (spec section 4.6) — pass with the refreshed coverage record for
the file, fail with diagnostic text, or toolchain breakdown (fatal). -/
inductive ValidateResult where
  | pass : CoverageRecord → ValidateResult
  | fail : String → ValidateResult
  | toolchainError : ValidateResult

/-- Modelled from the spec: the outcome of one synthesis attempt as seen by
the Iteration Controller (spec section 7 error taxonomy). -/
inductive AttemptOutcome where
  | inferenceUnavailable : AttemptOutcome
  | inferenceEmpty : AttemptOutcome
  | candidateMalformed : AttemptOutcome
  | fail : String → AttemptOutcome
  | pass : CoverageRecord → AttemptOutcome
  | toolchainError : AttemptOutcome

/-- Modelled from the spec: the black-box collaborators as deterministic
capability interfaces (spec section 9): synthesis backend by target file and
attempt number, post-processing of raw candidate text, and the toolchain
verdict for a written candidate. -/
structure Oracles where
  synth : String → Nat → SynthResult
  postProcess : String → PostResult
  validateOutcome : String → String → ValidateResult

/-- Modelled from the spec: the candidate that reaches the Validator on an
attempt, when any — `none` when synthesis failed or the Post-Processor
rejected the raw candidate (`CandidateMalformed` short-circuits, spec
section 4.5). -/
def synthesizedCode (oc : Oracles) (file : String) (k : Nat) : Option String :=
  match oc.synth file k with
  | SynthResult.ok raw =>
    match oc.postProcess raw with
    | PostResult.ok code => some code
    | PostResult.malformed => none
  | _ => none

/-- Whether the Validator is invoked on attempt `k` for `file`: exactly when
a post-processed candidate exists. -/
def validatorInvoked (oc : Oracles) (file : String) (k : Nat) : Bool :=
  (synthesizedCode oc file k).isSome

/-- Modelled from the spec: the attempt pipeline Prompt Builder → Synthesis
Client → Post-Processor → Validator, reduced to its outcome (spec sections
4.3 to 4.6). -/
def attemptOutcome (oc : Oracles) (file : String) (k : Nat) : AttemptOutcome :=
  match oc.synth file k with
  | SynthResult.unavailable => AttemptOutcome.inferenceUnavailable
  | SynthResult.empty => AttemptOutcome.inferenceEmpty
  | SynthResult.ok raw =>
    match oc.postProcess raw with
    | PostResult.malformed => AttemptOutcome.candidateMalformed
    | PostResult.ok code =>
      match oc.validateOutcome file code with
      | ValidateResult.pass r => AttemptOutcome.pass r
      | ValidateResult.fail d => AttemptOutcome.fail d
      | ValidateResult.toolchainError => AttemptOutcome.toolchainError

/-- Modelled from the spec: the filesystem effect of one attempt. The
Validator writes the post-processed candidate to the target's spec path —
the only component permitted to write (spec section 4.6); when the Validator
is not invoked nothing is written. -/
def attemptFs (oc : Oracles) (fs : FS) (file : String) (k : Nat) : FS :=
  match synthesizedCode oc file k with
  | some code => fsWrite fs (specPath file) code
  | none => fs

/-- Is an attempt outcome a file-scoped recoverable error (spec section 7)? -/
def recoverableErr : AttemptOutcome → Bool
  | AttemptOutcome.inferenceUnavailable => true
  | AttemptOutcome.inferenceEmpty => true
  | AttemptOutcome.candidateMalformed => true
  | AttemptOutcome.fail _ => true
  | AttemptOutcome.pass _ => false
  | AttemptOutcome.toolchainError => false

/-- Modelled from the spec: terminal result of working one file — `fixed`,
`abandoned`, or `fatal` when the toolchain itself broke (aborts the run). -/
inductive FileResult where
  | fixed : FileResult
  | abandoned : FileResult
  | fatal : FileResult
deriving DecidableEq, Repr

/-- Modelled from the spec: the run configuration — integer percent
threshold (`--min`, default 90), the run-level iteration budget
(`--max-iters`, bounds total attempts across the run), and the per-file
retry budget (spec sections 4.7 and 6). -/
structure Ctx where
  threshold : Nat
  maxIters : Nat
  perFileBudget : Nat

/-- Modelled from the spec: the per-file retry loop of the Iteration
Controller (spec section 4.7). Arguments: remaining per-file budget,
attempt number (attempts are numbered from 1), remaining global budget,
current filesystem. Returns the file result, the number of attempts
consumed, and the final filesystem. An exhausted per-file or global budget
abandons the file without an attempt; `toolchainError` is fatal after its
attempt; a `Pass` that clears the threshold fixes the file; every other
outcome — including a `Pass` that does not clear the threshold — consumes
the attempt and retries. -/
def fileLoop (ctx : Ctx) (oc : Oracles) (file : String) :
    Nat → Nat → Nat → FS → FileResult × Nat × FS
  | 0, _, _, fs => (FileResult.abandoned, 0, fs)
  | _ + 1, _, 0, fs => (FileResult.abandoned, 0, fs)
  | fuel + 1, k, g + 1, fs =>
    let fs1 := attemptFs oc fs file k
    match attemptOutcome oc file k with
    | AttemptOutcome.toolchainError => (FileResult.fatal, 1, fs1)
    | AttemptOutcome.pass r =>
      if clearsThreshold ctx.threshold r then (FileResult.fixed, 1, fs1)
      else
        let rec1 := fileLoop ctx oc file fuel (k + 1) g fs1
        (rec1.1, rec1.2.1 + 1, rec1.2.2)
    | _ =>
      let rec1 := fileLoop ctx oc file fuel (k + 1) g fs1
      (rec1.1, rec1.2.1 + 1, rec1.2.2)

/-- Modelled from the spec: the mutable run state owned by the Iteration
Controller — filesystem, overall attempt counter, per-file outcomes, and
whether a fatal toolchain error occurred (spec sections 3 and 4.7). -/
structure RunState where
  fs : FS
  attemptsUsed : Nat
  fixed : List String
  abandoned : List String
  fatal : Bool

/-- Modelled from the spec: the run loop across the work queue (spec
section 4.7). `g` is the remaining global attempt budget; once it is
exhausted every remaining pending file is marked abandoned without
consuming further attempts; a fatal file result aborts the remaining
queue. -/
def queueLoop (ctx : Ctx) (oc : Oracles) :
    List String → Nat → RunState → RunState
  | [], _, st => st
  | f :: rest, g, st =>
    if g = 0 then
      queueLoop ctx oc rest 0
        { st with abandoned := st.abandoned ++ [f] }
    else
      let r := fileLoop ctx oc f ctx.perFileBudget 1 g st.fs
      match r.1 with
      | FileResult.fatal =>
        { st with
          fs := r.2.2
          attemptsUsed := st.attemptsUsed + r.2.1
          fatal := true }
      | FileResult.fixed =>
        queueLoop ctx oc rest (g - r.2.1)
          { st with
            fs := r.2.2
            attemptsUsed := st.attemptsUsed + r.2.1
            fixed := st.fixed ++ [f] }
      | FileResult.abandoned =>
        queueLoop ctx oc rest (g - r.2.1)
          { st with
            fs := r.2.2
            attemptsUsed := st.attemptsUsed + r.2.1
            abandoned := st.abandoned ++ [f] }

/-- Modelled from the spec: a whole run over a work queue, starting with the
full global budget (`--max-iters`) and an empty accumulator. -/
def runResult (ctx : Ctx) (oc : Oracles) (queue : List String) (fs0 : FS) :
    RunState :=
  queueLoop ctx oc queue ctx.maxIters ⟨fs0, 0, [], [], false⟩

/-- Modelled from the spec: run success — no abandoned file and no fatal
toolchain error (spec section 4.7). -/
def runSuccess (st : RunState) : Bool :=
  st.abandoned.isEmpty && !st.fatal

/-- Modelled from the spec: the process entry point (spec sections 6 and 7).
An unreadable coverage report (`ReportUnreadable`, modelled as `none`)
aborts before any attempt with a nonzero exit code; otherwise the deficiency
queue is derived and worked, and the exit code is 0 exactly when the final
run status is success. -/
def mainExit (ctx : Ctx) (oc : Oracles) (parsed : Option (List CoverageRecord))
    (sources : List String) (fs0 : FS) : Nat :=
  match parsed with
  | none => 1
  | some R =>
    let queue := (selectDeficiencies sources R ctx.threshold).map
      (fun d => d.path)
    if runSuccess (runResult ctx oc queue fs0) then 0 else 1

/-- A record at 95% line and 90% branch coverage (clears a 90 threshold). -/
def sampleRecord : CoverageRecord :=
  ⟨"src/app/a.ts", 95, 100, 9, 10⟩

/-- A record at 10% line coverage (does not clear a 90 threshold). -/
def lowRecord : CoverageRecord :=
  ⟨"src/app/a.ts", 10, 100, 0, 10⟩

/-- Sample configuration: threshold 90, budget 10 total, 3 per file. -/
def ctx0 : Ctx :=
  ⟨90, 10, 3⟩

/-- Sample collaborators for which every attempt synthesizes, post-processes
and passes with coverage clearing the threshold. -/
def okOracles : Oracles :=
  ⟨fun _ _ => SynthResult.ok "raw",
   fun _ => PostResult.ok "code",
   fun _ _ => ValidateResult.pass sampleRecord⟩

/-- Sample collaborators for which every attempt passes but with coverage
still below the threshold. -/
def lowOracles : Oracles :=
  ⟨fun _ _ => SynthResult.ok "raw",
   fun _ => PostResult.ok "code",
   fun _ _ => ValidateResult.pass lowRecord⟩

/-- Sample collaborators for which the Post-Processor always rejects the
candidate as malformed. -/
def malformedOracles : Oracles :=
  ⟨fun _ _ => SynthResult.ok "prose",
   fun _ => PostResult.malformed,
   fun _ _ => ValidateResult.fail "diag"⟩

/-- Sample collaborators for which the toolchain itself is broken: every
validation attempt ends in `ToolchainError`. -/
def badOracles : Oracles :=
  ⟨fun _ _ => SynthResult.ok "raw",
   fun _ => PostResult.ok "code",
   fun _ _ => ValidateResult.toolchainError⟩

/-! ### Filesystem and scaffolding-tool lemmas -/

theorem fsLookup_cons (e : String × String) (fs : FS) (p : String) :
    fsLookup (e :: fs) p = if e.1 == p then some e.2 else fsLookup fs p := by
  cases h : (e.1 == p) <;> simp [fsLookup, List.find?_cons, h]

theorem ensureStep_skip {st : FS × Nat} {f : String}
    (hg : (fsLookup st.1 (specPath f)).isSome = true) :
    ensureStep st f = st := by
  unfold ensureStep
  rw [if_pos hg]

theorem ensureStep_write {st : FS × Nat} {f : String}
    (hg : ¬(fsLookup st.1 (specPath f)).isSome = true) :
    ensureStep st f = ((specPath f, placeholder f) :: st.1, st.2 + 1) := by
  unfold ensureStep
  rw [if_neg hg]
  rfl

theorem fsLookup_ensureStep_some {st : FS × Nat} {f p : String} {c : String}
    (h : fsLookup st.1 p = some c) :
    fsLookup (ensureStep st f).1 p = some c := by
  unfold ensureStep
  by_cases hg : (fsLookup st.1 (specPath f)).isSome = true
  · rw [if_pos hg]; exact h
  · have hnone : fsLookup st.1 (specPath f) = none :=
      Option.not_isSome_iff_eq_none.mp hg
    rw [if_neg hg]
    simp only [fsWrite]
    rw [fsLookup_cons]
    by_cases he : specPath f = p
    · rw [he] at hnone
      rw [hnone] at h
      cases h
    · simp [he, h]

theorem fsLookup_ensureSpecsRun_some :
    ∀ (files : List String) (st : FS × Nat) (p c : String),
      fsLookup st.1 p = some c →
      fsLookup (files.foldl ensureStep st).1 p = some c := by
  intro files
  induction files with
  | nil => intro st p c h; simpa using h
  | cons f rest ih =>
    intro st p c h
    exact ih _ _ _ (fsLookup_ensureStep_some h)

theorem ensureSpecsRun_length :
    ∀ (files : List String) (st : FS × Nat),
      (files.foldl ensureStep st).1.length + st.2
        = (files.foldl ensureStep st).2 + st.1.length := by
  intro files
  induction files with
  | nil => intro st; simp; omega
  | cons f rest ih =>
    intro st
    simp only [List.foldl_cons]
    by_cases hg : (fsLookup st.1 (specPath f)).isSome = true
    · rw [ensureStep_skip hg]
      exact ih st
    · rw [ensureStep_write hg]
      have h2 := ih ((specPath f, placeholder f) :: st.1, st.2 + 1)
      simp only [List.length_cons] at h2 ⊢
      omega

theorem ensureSpecsRun_lookup_some :
    ∀ (files : List String) (st : FS × Nat) (p c : String),
      fsLookup (files.foldl ensureStep st).1 p = some c →
      fsLookup st.1 p = some c ∨
        ∃ f, f ∈ files ∧ p = specPath f ∧ c = placeholder f ∧
          fsLookup st.1 p = none := by
  intro files
  induction files with
  | nil =>
    intro st p c h
    left
    simpa using h
  | cons f0 rest ih =>
    intro st p c h
    simp only [List.foldl_cons] at h
    rcases ih _ _ _ h with h1 | ⟨f, hf, hp, hc, hnone⟩
    · unfold ensureStep at h1
      by_cases hg : (fsLookup st.1 (specPath f0)).isSome = true
      · rw [if_pos hg] at h1
        left; exact h1
      · have hnone0 : fsLookup st.1 (specPath f0) = none :=
          Option.not_isSome_iff_eq_none.mp hg
        rw [if_neg hg] at h1
        simp only [fsWrite] at h1
        rw [fsLookup_cons] at h1
        by_cases he : specPath f0 = p
        · simp only [he, beq_self_eq_true, if_true, Option.some.injEq] at h1
          right
          exact ⟨f0, List.mem_cons_self _ _, he.symm, h1.symm, he ▸ hnone0⟩
        · simp only [show (specPath f0 == p) = false by simpa using he,
            Bool.false_eq_true, if_false] at h1
          left; exact h1
    · unfold ensureStep at hnone
      by_cases hg : (fsLookup st.1 (specPath f0)).isSome = true
      · rw [if_pos hg] at hnone
        right
        exact ⟨f, List.mem_cons_of_mem _ hf, hp, hc, hnone⟩
      · rw [if_neg hg] at hnone
        simp only [fsWrite] at hnone
        rw [fsLookup_cons] at hnone
        by_cases he : specPath f0 = p
        · simp [he] at hnone
        · simp only [show (specPath f0 == p) = false by simpa using he,
            Bool.false_eq_true, if_false] at hnone
          right
          exact ⟨f, List.mem_cons_of_mem _ hf, hp, hc, hnone⟩

theorem ensureSpecsRun_creates :
    ∀ (files : List String) (st : FS × Nat) (f : String), f ∈ files →
      ∃ c, fsLookup (files.foldl ensureStep st).1 (specPath f) = some c := by
  intro files
  induction files with
  | nil => intro st f h; cases h
  | cons f0 rest ih =>
    intro st f hmem
    rcases List.mem_cons.mp hmem with rfl | hmem
    · have hsome : ∃ c, fsLookup (ensureStep st f).1 (specPath f) = some c := by
        unfold ensureStep
        by_cases hg : (fsLookup st.1 (specPath f)).isSome = true
        · rcases Option.isSome_iff_exists.mp hg with ⟨c, hc⟩
          exact ⟨c, by rw [if_pos hg]; exact hc⟩
        · refine ⟨placeholder f, ?_⟩
          rw [if_neg hg]
          simp only [fsWrite]
          rw [fsLookup_cons]
          simp
      rcases hsome with ⟨c, hc⟩
      exact ⟨c, fsLookup_ensureSpecsRun_some rest _ _ _ hc⟩
    · exact ih _ f hmem

theorem ensureSpecsRun_frame :
    ∀ (files : List String) (st : FS × Nat) (p : String),
      (∀ f, f ∈ files → p ≠ specPath f) →
      fsLookup (files.foldl ensureStep st).1 p = fsLookup st.1 p := by
  intro files
  induction files with
  | nil => intro st p _; simp
  | cons f0 rest ih =>
    intro st p hp
    simp only [List.foldl_cons]
    rw [ih _ _ (fun f hf => hp f (List.mem_cons_of_mem _ hf))]
    unfold ensureStep
    by_cases hg : (fsLookup st.1 (specPath f0)).isSome = true
    · rw [if_pos hg]
    · have hne : specPath f0 ≠ p := fun h =>
        hp f0 (List.mem_cons_self _ _) h.symm
      rw [if_neg hg]
      simp only [fsWrite]
      rw [fsLookup_cons]
      simp [show (specPath f0 == p) = false by simpa using hne]

/-! ### Deficiency Selector lemmas -/

theorem linePctLt_iff (r : CoverageRecord) (T : Nat) :
    linePctLt r T = true ↔ linePctQ r < (T : ℚ) := by
  unfold linePctLt linePctQ
  by_cases h : r.linesTotal = 0
  · simp [h, Nat.cast_pos]
  · have ht : (0 : ℚ) < (r.linesTotal : ℚ) :=
      Nat.cast_pos.mpr (Nat.pos_of_ne_zero h)
    rw [if_neg h, if_neg h, div_mul_eq_mul_div, div_lt_iff₀ ht,
      decide_eq_true_eq]
    constructor
    · intro hlt
      exact_mod_cast hlt
    · intro hlt
      exact_mod_cast hlt

theorem branchPctLt_iff (r : CoverageRecord) (T : Nat) :
    branchPctLt r T = true ↔ branchPctQ r < (T : ℚ) := by
  unfold branchPctLt branchPctQ
  by_cases h : r.branchesTotal = 0
  · rw [if_pos h, if_pos h, decide_eq_true_eq]
    constructor
    · intro hlt
      exact_mod_cast hlt
    · intro hlt
      exact_mod_cast hlt
  · have ht : (0 : ℚ) < (r.branchesTotal : ℚ) :=
      Nat.cast_pos.mpr (Nat.pos_of_ne_zero h)
    rw [if_neg h, if_neg h, div_mul_eq_mul_div, div_lt_iff₀ ht,
      decide_eq_true_eq]
    constructor
    · intro hlt
      exact_mod_cast hlt
    · intro hlt
      exact_mod_cast hlt

theorem isDeficientRecord_iff (T : Nat) (r : CoverageRecord) :
    isDeficientRecord T r = true ↔
      r.linesTotal ≠ 0 ∧ (linePctQ r < (T : ℚ) ∨ branchPctQ r < (T : ℚ)) := by
  unfold isDeficientRecord
  rw [Bool.and_eq_true, Bool.or_eq_true, decide_eq_true_eq,
    linePctLt_iff, branchPctLt_iff]

theorem pctDen_pos (r : CoverageRecord) : 0 < pctDen r := by
  unfold pctDen
  split <;> omega

theorem charListLe_total :
    ∀ (l1 l2 : List Char), (charListLe l1 l2 || charListLe l2 l1) = true := by
  intro l1
  induction l1 with
  | nil => intro l2; simp [charListLe]
  | cons a as ih =>
    intro l2
    cases l2 with
    | nil => simp [charListLe]
    | cons b bs =>
      simp only [charListLe]
      rcases Nat.lt_trichotomy a.toNat b.toNat with h | h | h
      · simp [h]
      · simp only [h, lt_irrefl, if_false]
        exact ih bs
      · simp [h, Nat.lt_asymm h]

theorem charListLe_trans :
    ∀ (l1 l2 l3 : List Char), charListLe l1 l2 = true →
      charListLe l2 l3 = true → charListLe l1 l3 = true := by
  intro l1
  induction l1 with
  | nil => intro l2 l3 _ _; rfl
  | cons a as ih =>
    intro l2 l3 h12 h23
    cases l2 with
    | nil => simp [charListLe] at h12
    | cons b bs =>
      cases l3 with
      | nil => simp [charListLe] at h23
      | cons c cs =>
        simp only [charListLe] at h12 h23 ⊢
        by_cases hab : a.toNat < b.toNat
        · by_cases hbc : b.toNat < c.toNat
          · simp [Nat.lt_trans hab hbc]
          · by_cases hcb : c.toNat < b.toNat
            · simp [hbc, hcb] at h23
            · have hac : a.toNat < c.toNat := by omega
              simp [hac]
        · by_cases hba : b.toNat < a.toNat
          · simp [hab, hba] at h12
          · have heq : a.toNat = b.toNat := by omega
            simp only [hab, hba, if_false] at h12
            by_cases hbc : b.toNat < c.toNat
            · simp [heq ▸ hbc]
            · by_cases hcb : c.toNat < b.toNat
              · simp [hbc, hcb] at h23
              · simp only [hbc, hcb, if_false] at h23
                have hac : ¬ a.toNat < c.toNat := by omega
                have hca : ¬ c.toNat < a.toNat := by omega
                simp only [hac, hca, if_false]
                exact ih bs cs h12 h23

theorem strLe_total (a b : String) : (strLe a b || strLe b a) = true :=
  charListLe_total a.data b.data

theorem strLe_trans {a b c : String} (h1 : strLe a b = true)
    (h2 : strLe b c = true) : strLe a c = true :=
  charListLe_trans a.data b.data c.data h1 h2

theorem cross_eq_trans {na da nb db nc dc : Nat} (hdb : 0 < db)
    (h1 : na * db = nb * da) (h2 : nb * dc = nc * db) :
    na * dc = nc * da := by
  have key : na * dc * db = nc * da * db := by
    calc na * dc * db = (na * db) * dc := by ring
    _ = (nb * da) * dc := by rw [h1]
    _ = (nb * dc) * da := by ring
    _ = (nc * db) * da := by rw [h2]
    _ = nc * da * db := by ring
  exact Nat.eq_of_mul_eq_mul_right hdb key

theorem cross_lt_trans {na da nb db nc dc : Nat} (hda : 0 < da)
    (hdb : 0 < db) (hdc : 0 < dc) (h1 : na * db < nb * da)
    (h2 : nb * dc < nc * db) : na * dc < nc * da := by
  have A : na * db * dc < nb * da * dc := by
    exact Nat.mul_lt_mul_of_lt_of_le h1 (le_refl dc) hdc
  have B : nb * dc * da < nc * db * da := by
    exact Nat.mul_lt_mul_of_lt_of_le h2 (le_refl da) hda
  have key : na * dc * db < nc * da * db := by
    calc na * dc * db = na * db * dc := by ring
    _ < nb * da * dc := A
    _ = nb * dc * da := by ring
    _ < nc * db * da := B
    _ = nc * da * db := by ring
  exact Nat.lt_of_mul_lt_mul_right key

theorem cross_lt_of_lt_of_eq {na da nb db nc dc : Nat} (hda : 0 < da)
    (hdb : 0 < db) (hdc : 0 < dc) (h1 : na * db < nb * da)
    (h2 : nb * dc = nc * db) : na * dc < nc * da := by
  have A : na * db * dc < nb * da * dc := by
    exact Nat.mul_lt_mul_of_lt_of_le h1 (le_refl dc) hdc
  have key : na * dc * db < nc * da * db := by
    calc na * dc * db = na * db * dc := by ring
    _ < nb * da * dc := A
    _ = (nb * dc) * da := by ring
    _ = (nc * db) * da := by rw [h2]
    _ = nc * da * db := by ring
  exact Nat.lt_of_mul_lt_mul_right key

theorem cross_lt_of_eq_of_lt {na da nb db nc dc : Nat} (hda : 0 < da)
    (hdb : 0 < db) (hdc : 0 < dc) (h1 : na * db = nb * da)
    (h2 : nb * dc < nc * db) : na * dc < nc * da := by
  have B : nb * dc * da < nc * db * da := by
    exact Nat.mul_lt_mul_of_lt_of_le h2 (le_refl da) hda
  have key : na * dc * db < nc * da * db := by
    calc na * dc * db = (na * db) * dc := by ring
    _ = (nb * da) * dc := by rw [h1]
    _ = nb * dc * da := by ring
    _ < nc * db * da := B
    _ = nc * da * db := by ring
  exact Nat.lt_of_mul_lt_mul_right key

theorem defLE_total (a b : Deficiency) : (defLE a b || defLE b a) = true := by
  unfold defLE
  by_cases h : pctNum a.record * pctDen b.record
      = pctNum b.record * pctDen a.record
  · rw [if_pos h, if_pos h.symm]
    exact strLe_total a.path b.path
  · rw [if_neg h, if_neg (Ne.symm h)]
    simp only [Bool.or_eq_true, decide_eq_true_eq]
    omega

theorem defLE_trans (a b c : Deficiency) (h1 : defLE a b = true)
    (h2 : defLE b c = true) : defLE a c = true := by
  have hda := pctDen_pos a.record
  have hdb := pctDen_pos b.record
  have hdc := pctDen_pos c.record
  unfold defLE at h1 h2 ⊢
  by_cases hab : pctNum a.record * pctDen b.record
      = pctNum b.record * pctDen a.record
  · rw [if_pos hab] at h1
    by_cases hbc : pctNum b.record * pctDen c.record
        = pctNum c.record * pctDen b.record
    · rw [if_pos hbc] at h2
      rw [if_pos (cross_eq_trans hdb hab hbc)]
      exact strLe_trans h1 h2
    · rw [if_neg hbc, decide_eq_true_eq] at h2
      have hlt := cross_lt_of_eq_of_lt hda hdb hdc hab h2
      rw [if_neg (Nat.ne_of_lt hlt), decide_eq_true_eq]
      exact hlt
  · rw [if_neg hab, decide_eq_true_eq] at h1
    by_cases hbc : pctNum b.record * pctDen c.record
        = pctNum c.record * pctDen b.record
    · rw [if_pos hbc] at h2
      have hlt := cross_lt_of_lt_of_eq hda hdb hdc h1 hbc
      rw [if_neg (Nat.ne_of_lt hlt), decide_eq_true_eq]
      exact hlt
    · rw [if_neg hbc, decide_eq_true_eq] at h2
      have hlt := cross_lt_trans hda hdb hdc h1 h2
      rw [if_neg (Nat.ne_of_lt hlt), decide_eq_true_eq]
      exact hlt

theorem mem_selectDeficiencies (sources : List String)
    (R : List CoverageRecord) (T : Nat) (d : Deficiency) :
    d ∈ selectDeficiencies sources R T ↔
      ((∃ r, r ∈ R ∧ r.linesTotal ≠ 0 ∧
          (linePctQ r < (T : ℚ) ∨ branchPctQ r < (T : ℚ)) ∧
          d = ⟨r.path, r⟩) ∨
        (d.path ∈ sources ∧ (∀ r, r ∈ R → r.path ≠ d.path) ∧
          d = ⟨d.path, zeroRecord d.path⟩)) := by
  unfold selectDeficiencies
  rw [List.Perm.mem_iff (List.mergeSort_perm _ _)]
  simp only [List.mem_append, List.mem_map, List.mem_filter,
    Bool.not_eq_true']
  constructor
  · rintro (⟨r, ⟨hr, hdef⟩, rfl⟩ | ⟨s, ⟨hs, habs⟩, rfl⟩)
    · left
      rcases (isDeficientRecord_iff T r).mp hdef with ⟨hne, hlt⟩
      exact ⟨r, hr, hne, hlt, rfl⟩
    · right
      refine ⟨hs, ?_, rfl⟩
      intro r hrR
      have habs2 : R.any (fun x => x.path == s) = false := habs
      have hne := List.any_eq_false.mp habs2 r hrR
      simpa using hne
  · rintro (⟨r, hr, hne, hlt, rfl⟩ | ⟨hs, hall, hd⟩)
    · left
      exact ⟨r, ⟨hr, (isDeficientRecord_iff T r).mpr ⟨hne, hlt⟩⟩, rfl⟩
    · right
      refine ⟨d.path, ⟨hs, ?_⟩, hd.symm⟩
      simp only [reportHasPath]
      rw [List.any_eq_false]
      intro r hrR
      simpa using hall r hrR

/-! ### Iteration Controller lemmas -/

theorem attemptFs_frame {oc : Oracles} {fs : FS} {file : String} {k : Nat}
    {p : String} (hp : p ≠ specPath file) :
    fsLookup (attemptFs oc fs file k) p = fsLookup fs p := by
  unfold attemptFs
  cases synthesizedCode oc file k with
  | none => rfl
  | some code =>
    simp only [fsWrite]
    rw [fsLookup_cons]
    simp [show (specPath file == p) = false by simpa using Ne.symm hp]

theorem attemptOutcome_ne_toolchainError {oc : Oracles} (file : String)
    (k : Nat)
    (hn : ∀ f c, oc.validateOutcome f c ≠ ValidateResult.toolchainError) :
    attemptOutcome oc file k ≠ AttemptOutcome.toolchainError := by
  unfold attemptOutcome
  cases hs : oc.synth file k with
  | unavailable => simp
  | empty => simp
  | ok raw =>
    cases hp : oc.postProcess raw with
    | malformed => simp [hp]
    | ok code =>
      cases hv : oc.validateOutcome file code with
      | pass r => simp [hp, hv]
      | fail d => simp [hp, hv]
      | toolchainError => exact absurd hv (hn file code)

theorem fileLoop_attempts_le_g (ctx : Ctx) (oc : Oracles) (file : String) :
    ∀ (fuel k g : Nat) (fs : FS),
      (fileLoop ctx oc file fuel k g fs).2.1 ≤ g := by
  intro fuel
  induction fuel with
  | zero => intro k g fs; simp [fileLoop]
  | succ fuel ih =>
    intro k g fs
    cases g with
    | zero => simp [fileLoop]
    | succ g =>
      cases ho : attemptOutcome oc file k with
      | toolchainError => simp [fileLoop, ho]
      | pass r =>
        by_cases hc : clearsThreshold ctx.threshold r = true
        · simp [fileLoop, ho, hc]
        · simp only [fileLoop, ho, hc, Bool.false_eq_true, if_false]
          have := ih (k + 1) g (attemptFs oc fs file k)
          omega
      | inferenceUnavailable =>
        simp only [fileLoop, ho]
        have := ih (k + 1) g (attemptFs oc fs file k)
        omega
      | inferenceEmpty =>
        simp only [fileLoop, ho]
        have := ih (k + 1) g (attemptFs oc fs file k)
        omega
      | candidateMalformed =>
        simp only [fileLoop, ho]
        have := ih (k + 1) g (attemptFs oc fs file k)
        omega
      | fail d =>
        simp only [fileLoop, ho]
        have := ih (k + 1) g (attemptFs oc fs file k)
        omega

theorem fileLoop_fixed_pass (ctx : Ctx) (oc : Oracles) (file : String) :
    ∀ (fuel k g : Nat) (fs : FS),
      (fileLoop ctx oc file fuel k g fs).1 = FileResult.fixed →
      ∃ j r, k ≤ j ∧ attemptOutcome oc file j = AttemptOutcome.pass r ∧
        clearsThreshold ctx.threshold r = true := by
  intro fuel
  induction fuel with
  | zero => intro k g fs h; simp [fileLoop] at h
  | succ fuel ih =>
    intro k g fs h
    cases g with
    | zero => simp [fileLoop] at h
    | succ g =>
      cases ho : attemptOutcome oc file k with
      | toolchainError => simp [fileLoop, ho] at h
      | pass r =>
        by_cases hc : clearsThreshold ctx.threshold r = true
        · exact ⟨k, r, le_refl k, ho, hc⟩
        · simp only [fileLoop, ho, hc, Bool.false_eq_true, if_false] at h
          rcases ih (k + 1) g (attemptFs oc fs file k) h with
            ⟨j, r', hj, hpass, hcl⟩
          exact ⟨j, r', Nat.le_of_succ_le hj, hpass, hcl⟩
      | inferenceUnavailable =>
        simp only [fileLoop, ho] at h
        rcases ih (k + 1) g (attemptFs oc fs file k) h with
          ⟨j, r', hj, hpass, hcl⟩
        exact ⟨j, r', Nat.le_of_succ_le hj, hpass, hcl⟩
      | inferenceEmpty =>
        simp only [fileLoop, ho] at h
        rcases ih (k + 1) g (attemptFs oc fs file k) h with
          ⟨j, r', hj, hpass, hcl⟩
        exact ⟨j, r', Nat.le_of_succ_le hj, hpass, hcl⟩
      | candidateMalformed =>
        simp only [fileLoop, ho] at h
        rcases ih (k + 1) g (attemptFs oc fs file k) h with
          ⟨j, r', hj, hpass, hcl⟩
        exact ⟨j, r', Nat.le_of_succ_le hj, hpass, hcl⟩
      | fail d =>
        simp only [fileLoop, ho] at h
        rcases ih (k + 1) g (attemptFs oc fs file k) h with
          ⟨j, r', hj, hpass, hcl⟩
        exact ⟨j, r', Nat.le_of_succ_le hj, hpass, hcl⟩

theorem fileLoop_frame (ctx : Ctx) (oc : Oracles) (file : String)
    {p : String} (hp : p ≠ specPath file) :
    ∀ (fuel k g : Nat) (fs : FS),
      fsLookup (fileLoop ctx oc file fuel k g fs).2.2 p = fsLookup fs p := by
  intro fuel
  induction fuel with
  | zero => intro k g fs; simp [fileLoop]
  | succ fuel ih =>
    intro k g fs
    cases g with
    | zero => simp [fileLoop]
    | succ g =>
      cases ho : attemptOutcome oc file k with
      | toolchainError => simp [fileLoop, ho, attemptFs_frame hp]
      | pass r =>
        by_cases hc : clearsThreshold ctx.threshold r = true
        · simp [fileLoop, ho, hc, attemptFs_frame hp]
        · simp only [fileLoop, ho, hc, Bool.false_eq_true, if_false]
          rw [ih (k + 1) g (attemptFs oc fs file k), attemptFs_frame hp]
      | inferenceUnavailable =>
        simp only [fileLoop, ho]
        rw [ih (k + 1) g (attemptFs oc fs file k), attemptFs_frame hp]
      | inferenceEmpty =>
        simp only [fileLoop, ho]
        rw [ih (k + 1) g (attemptFs oc fs file k), attemptFs_frame hp]
      | candidateMalformed =>
        simp only [fileLoop, ho]
        rw [ih (k + 1) g (attemptFs oc fs file k), attemptFs_frame hp]
      | fail d =>
        simp only [fileLoop, ho]
        rw [ih (k + 1) g (attemptFs oc fs file k), attemptFs_frame hp]

theorem fileLoop_not_fatal (ctx : Ctx) {oc : Oracles} (file : String)
    (hn : ∀ f c, oc.validateOutcome f c ≠ ValidateResult.toolchainError) :
    ∀ (fuel k g : Nat) (fs : FS),
      (fileLoop ctx oc file fuel k g fs).1 ≠ FileResult.fatal := by
  intro fuel
  induction fuel with
  | zero => intro k g fs; simp [fileLoop]
  | succ fuel ih =>
    intro k g fs
    cases g with
    | zero => simp [fileLoop]
    | succ g =>
      cases ho : attemptOutcome oc file k with
      | toolchainError =>
        exact absurd ho (attemptOutcome_ne_toolchainError file k hn)
      | pass r =>
        by_cases hc : clearsThreshold ctx.threshold r = true
        · simp [fileLoop, ho, hc]
        · simp only [fileLoop, ho, hc, Bool.false_eq_true, if_false]
          exact ih (k + 1) g (attemptFs oc fs file k)
      | inferenceUnavailable =>
        simp only [fileLoop, ho]
        exact ih (k + 1) g (attemptFs oc fs file k)
      | inferenceEmpty =>
        simp only [fileLoop, ho]
        exact ih (k + 1) g (attemptFs oc fs file k)
      | candidateMalformed =>
        simp only [fileLoop, ho]
        exact ih (k + 1) g (attemptFs oc fs file k)
      | fail d =>
        simp only [fileLoop, ho]
        exact ih (k + 1) g (attemptFs oc fs file k)

theorem queueLoop_exhausted (ctx : Ctx) (oc : Oracles) :
    ∀ (rest : List String) (st : RunState),
      queueLoop ctx oc rest 0 st
        = { st with abandoned := st.abandoned ++ rest } := by
  intro rest
  induction rest with
  | nil => intro st; simp [queueLoop]
  | cons f rest ih =>
    intro st
    show queueLoop ctx oc (f :: rest) 0 st = _
    rw [show queueLoop ctx oc (f :: rest) 0 st
      = queueLoop ctx oc rest 0 { st with abandoned := st.abandoned ++ [f] }
      from by simp [queueLoop]]
    rw [ih]
    simp

theorem queueLoop_attempts (ctx : Ctx) (oc : Oracles) :
    ∀ (q : List String) (g : Nat) (st : RunState),
      (queueLoop ctx oc q g st).attemptsUsed ≤ st.attemptsUsed + g := by
  intro q
  induction q with
  | nil => intro g st; simp [queueLoop]
  | cons f rest ih =>
    intro g st
    by_cases hg : g = 0
    · subst hg
      rw [queueLoop_exhausted]
      simp
    · have hle := fileLoop_attempts_le_g ctx oc f ctx.perFileBudget 1 g st.fs
      simp only [queueLoop]
      rw [if_neg hg]
      cases hr1 : (fileLoop ctx oc f ctx.perFileBudget 1 g st.fs).1 with
      | fatal => simp only; omega
      | fixed =>
        simp only
        have := ih (g - (fileLoop ctx oc f ctx.perFileBudget 1 g st.fs).2.1)
          { st with
            fs := (fileLoop ctx oc f ctx.perFileBudget 1 g st.fs).2.2
            attemptsUsed := st.attemptsUsed
              + (fileLoop ctx oc f ctx.perFileBudget 1 g st.fs).2.1
            fixed := st.fixed ++ [f] }
        simp only at this
        omega
      | abandoned =>
        simp only
        have := ih (g - (fileLoop ctx oc f ctx.perFileBudget 1 g st.fs).2.1)
          { st with
            fs := (fileLoop ctx oc f ctx.perFileBudget 1 g st.fs).2.2
            attemptsUsed := st.attemptsUsed
              + (fileLoop ctx oc f ctx.perFileBudget 1 g st.fs).2.1
            abandoned := st.abandoned ++ [f] }
        simp only at this
        omega

theorem queueLoop_fixed_mem (ctx : Ctx) (oc : Oracles) :
    ∀ (q : List String) (g : Nat) (st : RunState) (f : String),
      f ∈ (queueLoop ctx oc q g st).fixed →
      f ∈ st.fixed ∨ (f ∈ q ∧ ∃ j r, 1 ≤ j ∧
        attemptOutcome oc f j = AttemptOutcome.pass r ∧
        clearsThreshold ctx.threshold r = true) := by
  intro q
  induction q with
  | nil => intro g st f h; left; simpa [queueLoop] using h
  | cons f0 rest ih =>
    intro g st f h
    by_cases hg : g = 0
    · subst hg
      rw [queueLoop_exhausted] at h
      left
      simpa using h
    · simp only [queueLoop] at h
      rw [if_neg hg] at h
      cases hr1 : (fileLoop ctx oc f0 ctx.perFileBudget 1 g st.fs).1 with
      | fatal =>
        rw [hr1] at h
        simp only at h
        left; exact h
      | fixed =>
        rw [hr1] at h
        simp only at h
        rcases ih _ _ _ h with hmem | ⟨hq, hrest⟩
        · simp only [List.mem_append, List.mem_singleton] at hmem
          rcases hmem with hmem | rfl
          · left; exact hmem
          · right
            refine ⟨List.mem_cons_self _ _, ?_⟩
            exact fileLoop_fixed_pass ctx oc f ctx.perFileBudget 1 g st.fs hr1
        · right; exact ⟨List.mem_cons_of_mem _ hq, hrest⟩
      | abandoned =>
        rw [hr1] at h
        simp only at h
        rcases ih _ _ _ h with hmem | ⟨hq, hrest⟩
        · left; exact hmem
        · right; exact ⟨List.mem_cons_of_mem _ hq, hrest⟩

theorem queueLoop_acc_mono (ctx : Ctx) (oc : Oracles) :
    ∀ (q : List String) (g : Nat) (st : RunState) (f : String),
      (f ∈ st.fixed → f ∈ (queueLoop ctx oc q g st).fixed) ∧
      (f ∈ st.abandoned → f ∈ (queueLoop ctx oc q g st).abandoned) := by
  intro q
  induction q with
  | nil => intro g st f; simp [queueLoop]
  | cons f0 rest ih =>
    intro g st f
    by_cases hg : g = 0
    · subst hg
      rw [queueLoop_exhausted]
      constructor
      · intro h; exact h
      · intro h
        simp only [List.mem_append]
        left; exact h
    · simp only [queueLoop]
      rw [if_neg hg]
      cases hr1 : (fileLoop ctx oc f0 ctx.perFileBudget 1 g st.fs).1 with
      | fatal => simp only; exact ⟨id, id⟩
      | fixed =>
        simp only
        constructor
        · intro h
          exact (ih _ _ f).1 (by simp [h])
        · intro h
          exact (ih _ _ f).2 h
      | abandoned =>
        simp only
        constructor
        · intro h
          exact (ih _ _ f).1 h
        · intro h
          exact (ih _ _ f).2 (by simp [h])

theorem queueLoop_processes (ctx : Ctx) {oc : Oracles}
    (hn : ∀ f c, oc.validateOutcome f c ≠ ValidateResult.toolchainError) :
    ∀ (q : List String) (g : Nat) (st : RunState) (f : String), f ∈ q →
      f ∈ (queueLoop ctx oc q g st).fixed ∨
      f ∈ (queueLoop ctx oc q g st).abandoned := by
  intro q
  induction q with
  | nil => intro g st f h; cases h
  | cons f0 rest ih =>
    intro g st f hmem
    by_cases hg : g = 0
    · subst hg
      rw [queueLoop_exhausted]
      right
      simp only [List.mem_append]
      right; exact hmem
    · simp only [queueLoop]
      rw [if_neg hg]
      cases hr1 : (fileLoop ctx oc f0 ctx.perFileBudget 1 g st.fs).1 with
      | fatal => exact absurd hr1 (fileLoop_not_fatal ctx f0 hn _ _ _ _)
      | fixed =>
        simp only
        rcases List.mem_cons.mp hmem with rfl | hmem
        · left
          exact (queueLoop_acc_mono ctx oc rest _ _ f).1 (by simp)
        · exact ih _ _ f hmem
      | abandoned =>
        simp only
        rcases List.mem_cons.mp hmem with rfl | hmem
        · right
          exact (queueLoop_acc_mono ctx oc rest _ _ f).2 (by simp)
        · exact ih _ _ f hmem

theorem queueLoop_not_fatal (ctx : Ctx) {oc : Oracles}
    (hn : ∀ f c, oc.validateOutcome f c ≠ ValidateResult.toolchainError) :
    ∀ (q : List String) (g : Nat) (st : RunState), st.fatal = false →
      (queueLoop ctx oc q g st).fatal = false := by
  intro q
  induction q with
  | nil => intro g st h; simpa [queueLoop] using h
  | cons f0 rest ih =>
    intro g st h
    by_cases hg : g = 0
    · subst hg
      rw [queueLoop_exhausted]
      exact h
    · simp only [queueLoop]
      rw [if_neg hg]
      cases hr1 : (fileLoop ctx oc f0 ctx.perFileBudget 1 g st.fs).1 with
      | fatal => exact absurd hr1 (fileLoop_not_fatal ctx f0 hn _ _ _ _)
      | fixed =>
        simp only
        exact ih _ _ h
      | abandoned =>
        simp only
        exact ih _ _ h

theorem queueLoop_frame (ctx : Ctx) (oc : Oracles) {p : String} :
    ∀ (q : List String), (∀ f, f ∈ q → p ≠ specPath f) →
      ∀ (g : Nat) (st : RunState),
        fsLookup (queueLoop ctx oc q g st).fs p = fsLookup st.fs p := by
  intro q
  induction q with
  | nil => intro _ g st; simp [queueLoop]
  | cons f0 rest ih =>
    intro hp g st
    by_cases hg : g = 0
    · subst hg
      rw [queueLoop_exhausted]
    · have hrest : ∀ f, f ∈ rest → p ≠ specPath f := fun f hf =>
        hp f (List.mem_cons_of_mem _ hf)
      have hf0 : p ≠ specPath f0 := hp f0 (List.mem_cons_self _ _)
      have hfl := fileLoop_frame ctx oc f0 hf0 ctx.perFileBudget 1 g st.fs
      simp only [queueLoop]
      rw [if_neg hg]
      cases hr1 : (fileLoop ctx oc f0 ctx.perFileBudget 1 g st.fs).1 with
      | fatal =>
        simp only
        exact hfl
      | fixed =>
        simp only
        rw [ih hrest]
        exact hfl
      | abandoned =>
        simp only
        rw [ih hrest]
        exact hfl

/-! ### Claim theorems -/

/-- Claim C10: for every `Product p`, `HomepageComponent.isDiscounted p`
returns `true` exactly when `p.originalPrice` is defined, nonzero, and
strictly greater than `p.price`; in particular it is `false` when
`originalPrice` is `undefined` or `0`, and when it equals `price`. -/
theorem C10_isDiscounted_iff (p : Product) :
    isDiscounted p = true ↔
      ∃ v, p.originalPrice = some v ∧ v ≠ 0 ∧ p.price < v := by
  cases hop : p.originalPrice with
  | none => simp [isDiscounted, hop]
  | some v => simp [isDiscounted, hop, and_assoc]

/-- Claim C8: a matched source file whose `.spec.ts` sibling already exists
on disk is skipped by the scaffolding tool — the existing spec file's
content is never overwritten or modified by a run of
`tools/ensure-specs-for-ts.mjs`. -/
theorem C8_existing_spec_preserved (fs : FS) (paths : List String)
    (f c : String) (hmem : f ∈ globFiles paths)
    (hex : fsLookup fs (specPath f) = some c) :
    fsLookup (ensureSpecsTool fs paths).1 (specPath f) = some c :=
  fsLookup_ensureSpecsRun_some (globFiles paths) (fs, 0) (specPath f) c hex

/-- Claim C8 witness: with `src/app/demo.spec.ts` already on disk holding
`"old content"`, running the tool over `["src/app/demo.ts"]` leaves that
content in place. -/
theorem C8_existing_spec_preserved_witness :
    ("src/app/demo.ts" ∈ globFiles ["src/app/demo.ts"]) ∧
    fsLookup [("src/app/demo.spec.ts", "old content")]
      (specPath "src/app/demo.ts") = some "old content" ∧
    fsLookup (ensureSpecsTool [("src/app/demo.spec.ts", "old content")]
      ["src/app/demo.ts"]).1 (specPath "src/app/demo.ts")
      = some "old content" :=
  ⟨by decide, by decide,
    C8_existing_spec_preserved _ _ _ _ (by decide) (by decide)⟩

/-- Claim C9: a run of `tools/ensure-specs-for-ts.mjs` (a) only ever makes
content appear at the `.spec.ts` path of a matched file, and any such new
content is exactly the one-line placeholder for a file whose spec was
absent; (b) after the run every matched file has content at its spec path;
(c) the reported `created` count equals the number of files actually
written (entries added to the filesystem); (d) the spec path of every
matched file is the file with the trailing `.ts` replaced by `.spec.ts`;
and (e) paths matching the ignore patterns are never matched, hence never
given placeholders. -/
theorem C9_scaffolding_behaviour (fs : FS) (paths : List String) :
    (∀ p c, fsLookup (ensureSpecsTool fs paths).1 p = some c →
      fsLookup fs p = some c ∨
        ∃ f, f ∈ globFiles paths ∧ p = specPath f ∧ c = placeholder f ∧
          fsLookup fs p = none) ∧
    (∀ f, f ∈ globFiles paths →
      ∃ c, fsLookup (ensureSpecsTool fs paths).1 (specPath f) = some c) ∧
    (ensureSpecsTool fs paths).1.length
      = fs.length + (ensureSpecsTool fs paths).2 ∧
    (∀ f, f ∈ globFiles paths → specPath f = f.dropRight 3 ++ ".spec.ts") ∧
    (∀ f, matchesIgnore f = true → f ∉ globFiles paths) := by
  refine ⟨?_, ?_, ?_, ?_, ?_⟩
  · intro p c h
    exact ensureSpecsRun_lookup_some (globFiles paths) (fs, 0) p c h
  · intro f hf
    exact ensureSpecsRun_creates (globFiles paths) (fs, 0) f hf
  · have h := ensureSpecsRun_length (globFiles paths) (fs, 0)
    dsimp only at h
    show ((globFiles paths).foldl ensureStep (fs, 0)).1.length
      = fs.length + ((globFiles paths).foldl ensureStep (fs, 0)).2
    omega
  · intro f hf
    have hmem := List.mem_filter.mp hf
    have hglob : matchesTsGlob f = true := by
      have := hmem.2
      rw [Bool.and_eq_true] at this
      exact this.1
    have hts : strEndsWith f ".ts" = true := by
      unfold matchesTsGlob at hglob
      rw [Bool.and_eq_true] at hglob
      exact hglob.2
    unfold specPath
    rw [if_pos hts]
  · intro f hig hmem
    have h := (List.mem_filter.mp hmem).2
    rw [Bool.and_eq_true] at h
    rw [hig] at h
    simp at h

/-- Claim C7: frame property of every run — the only paths whose content can
change are the generated spec paths of the queued target files (for the
synthesis loop, whose Validator writes candidates) and of the matched files
(for the scaffolding tool); any other path keeps its exact content. -/
theorem C7_only_spec_paths_written (ctx : Ctx) (oc : Oracles)
    (queue : List String) (fs0 : FS) (fsT : FS) (paths : List String)
    (p : String) (h1 : ∀ f, f ∈ queue → p ≠ specPath f)
    (h2 : ∀ f, f ∈ globFiles paths → p ≠ specPath f) :
    fsLookup (runResult ctx oc queue fs0).fs p = fsLookup fs0 p ∧
    fsLookup (ensureSpecsTool fsT paths).1 p = fsLookup fsT p := by
  constructor
  · exact queueLoop_frame ctx oc queue h1 ctx.maxIters ⟨fs0, 0, [], [], false⟩
  · exact ensureSpecsRun_frame (globFiles paths) (fsT, 0) p h2

/-- Claim C7 witness: a synthesis run on queue `["src/app/a.ts"]` and a tool
run on `["src/app/b.ts"]` both leave the unrelated path
`src/app/other.ts` untouched. -/
theorem C7_only_spec_paths_written_witness :
    (∀ f, f ∈ ["src/app/a.ts"] → "src/app/other.ts" ≠ specPath f) ∧
    (∀ f, f ∈ globFiles ["src/app/b.ts"] → "src/app/other.ts" ≠ specPath f) ∧
    (fsLookup (runResult ctx0 okOracles ["src/app/a.ts"] []).fs
        "src/app/other.ts" = fsLookup [] "src/app/other.ts" ∧
      fsLookup (ensureSpecsTool [] ["src/app/b.ts"]).1 "src/app/other.ts"
        = fsLookup [] "src/app/other.ts") :=
  ⟨by decide, by decide,
    C7_only_spec_paths_written ctx0 okOracles ["src/app/a.ts"] [] []
      ["src/app/b.ts"] "src/app/other.ts" (by decide) (by decide)⟩

/-- Claim C1 counterexample: the claim "the output contains exactly those
files whose `line_pct < T` or `branch_pct < T`, plus every file absent from
R" fails on a record with `lines_total = 0`: its derived `line_pct` is `0`,
below the threshold `90`, yet the selector never includes it (such records
are treated as fully covered). Concrete input: sources `["src/app/x.ts"]`,
report `[⟨"src/app/x.ts", 0, 0, 0, 0⟩]`, threshold `90`. -/
theorem C1_counterexample :
    ¬ (∀ (sources : List String) (R : List CoverageRecord) (T : Nat)
        (r : CoverageRecord), r ∈ R → linePctQ r < (T : ℚ) →
        ∃ d, d ∈ selectDeficiencies sources R T ∧ d.path = r.path) := by
  intro h
  have hlt : linePctQ ⟨"src/app/x.ts", 0, 0, 0, 0⟩ < ((90 : Nat) : ℚ) := by
    norm_num [linePctQ]
  rcases h ["src/app/x.ts"] [⟨"src/app/x.ts", 0, 0, 0, 0⟩] 90
      ⟨"src/app/x.ts", 0, 0, 0, 0⟩ (List.mem_singleton.mpr rfl) hlt with
    ⟨d, hd, hdp⟩
  rw [mem_selectDeficiencies] at hd
  rcases hd with ⟨r, hr, hne, _, rfl⟩ | ⟨_, hall, _⟩
  · rw [List.mem_singleton] at hr
    subst hr
    exact hne rfl
  · exact hall _ (List.mem_singleton.mpr rfl) hdp.symm

/-- Claim C1 (amended): for every coverage report `R`, source list and
threshold `T`, the selector's output contains exactly the report records
with `lines_total ≠ 0` whose `line_pct < T` or `branch_pct < T`, plus every
file absent from `R` synthesized at 0% coverage (records with
`lines_total = 0` are excluded — treated as fully covered); the output is
ordered ascending by coverage percentage with path as tiebreak (the order
`defLE`), and rerunning on identical inputs yields the identical list. -/
theorem C1_selector_characterization (sources : List String)
    (R : List CoverageRecord) (T : Nat) :
    (∀ d, d ∈ selectDeficiencies sources R T ↔
      ((∃ r, r ∈ R ∧ r.linesTotal ≠ 0 ∧
          (linePctQ r < (T : ℚ) ∨ branchPctQ r < (T : ℚ)) ∧
          d = ⟨r.path, r⟩) ∨
        (d.path ∈ sources ∧ (∀ r, r ∈ R → r.path ≠ d.path) ∧
          d = ⟨d.path, zeroRecord d.path⟩))) ∧
    List.Pairwise (fun a b => defLE a b = true)
      (selectDeficiencies sources R T) ∧
    selectDeficiencies sources R T = selectDeficiencies sources R T := by
  refine ⟨fun d => mem_selectDeficiencies sources R T d, ?_, rfl⟩
  exact List.sorted_mergeSort defLE_trans defLE_total _

/-- Claim C2: a file whose report record has `lines_total = 0` is never
flagged as deficient, for any sources and threshold, even though its
derived `line_pct` is `0` (which is below any positive threshold). The
paths of a parsed report are pairwise distinct (it is a mapping from path
to record). -/
theorem C2_zero_total_never_flagged (sources : List String)
    (R : List CoverageRecord) (T : Nat) (r : CoverageRecord)
    (hr : r ∈ R) (h0 : r.linesTotal = 0)
    (hdist : R.Pairwise (fun a b => a.path ≠ b.path)) :
    linePctQ r = 0 ∧
    ∀ d, d ∈ selectDeficiencies sources R T → d.path ≠ r.path := by
  constructor
  · simp [linePctQ, h0]
  · intro d hd
    rw [mem_selectDeficiencies] at hd
    rcases hd with ⟨r', hr', hne, _, rfl⟩ | ⟨_, hall, _⟩
    · show r'.path ≠ r.path
      intro heq
      have hrr : r' = r := by
        by_contra hrr
        exact List.Pairwise.forall (fun x y hxy => hxy.symm) hdist
          hr' hr hrr heq
      exact hne (hrr ▸ h0)
    · intro heq
      exact hall r hr heq.symm

/-- Claim C2 witness: in a report holding a 0/0-lines record for
`src/app/zero.ts` next to an ordinary record, no selected deficiency is
`src/app/zero.ts`, at threshold 90. -/
theorem C2_zero_total_never_flagged_witness :
    ((⟨"src/app/zero.ts", 0, 0, 0, 0⟩ : CoverageRecord)
        ∈ [(⟨"src/app/zero.ts", 0, 0, 0, 0⟩ : CoverageRecord),
          ⟨"src/app/low.ts", 1, 10, 0, 0⟩]) ∧
    (⟨"src/app/zero.ts", 0, 0, 0, 0⟩ : CoverageRecord).linesTotal = 0 ∧
    ([(⟨"src/app/zero.ts", 0, 0, 0, 0⟩ : CoverageRecord),
        ⟨"src/app/low.ts", 1, 10, 0, 0⟩].Pairwise
      (fun a b => a.path ≠ b.path)) ∧
    (linePctQ ⟨"src/app/zero.ts", 0, 0, 0, 0⟩ = 0 ∧
      ∀ d, d ∈ selectDeficiencies ["src/app/zero.ts", "src/app/low.ts"]
          [⟨"src/app/zero.ts", 0, 0, 0, 0⟩, ⟨"src/app/low.ts", 1, 10, 0, 0⟩]
          90 →
        d.path ≠ (⟨"src/app/zero.ts", 0, 0, 0, 0⟩ : CoverageRecord).path) :=
  ⟨by decide, by decide, by decide,
    C2_zero_total_never_flagged _ _ 90 _ (by decide) (by decide) (by decide)⟩

/-- Claim C3: for every configuration and queue, the Iteration Controller
performs at most `maxIters` (`--max-iters`) attempts in total across all
files; and once the global budget is exhausted, every remaining pending
file is marked abandoned with no further attempt made — the state is
unchanged apart from the abandoned list (no attempt counted, no file
written). -/
theorem C3_global_budget (ctx : Ctx) (oc : Oracles) (queue : List String)
    (fs0 : FS) :
    (runResult ctx oc queue fs0).attemptsUsed ≤ ctx.maxIters ∧
    (∀ (rest : List String) (st : RunState),
      queueLoop ctx oc rest 0 st
        = { st with abandoned := st.abandoned ++ rest }) := by
  constructor
  · have h := queueLoop_attempts ctx oc queue ctx.maxIters ⟨fs0, 0, [], [], false⟩
    show (queueLoop ctx oc queue ctx.maxIters
      ⟨fs0, 0, [], [], false⟩).attemptsUsed ≤ ctx.maxIters
    simpa using h
  · exact queueLoop_exhausted ctx oc

/-- Claim C4: a file reaches `fixed` only through an attempt whose Validator
outcome was `Pass` with a record that clears the threshold (both at the
per-file loop and at the whole-run level); and a `Pass` whose record does
not clear the threshold is treated like a `Fail` for retry purposes: the
loop consumes the attempt and continues with the next attempt — it never
returns `fixed` for that attempt. -/
theorem C4_fixed_requires_pass_and_threshold (ctx : Ctx) (oc : Oracles)
    (file : String) (fuel k g : Nat) (fs : FS) (r : CoverageRecord)
    (hpass : attemptOutcome oc file k = AttemptOutcome.pass r)
    (hlow : clearsThreshold ctx.threshold r = false) :
    (fileLoop ctx oc file (fuel + 1) k (g + 1) fs
      = ((fileLoop ctx oc file fuel (k + 1) g (attemptFs oc fs file k)).1,
        (fileLoop ctx oc file fuel (k + 1) g (attemptFs oc fs file k)).2.1
          + 1,
        (fileLoop ctx oc file fuel (k + 1) g (attemptFs oc fs file k)).2.2))
      ∧
    (∀ (fuel' k' g' : Nat) (fs' : FS),
      (fileLoop ctx oc file fuel' k' g' fs').1 = FileResult.fixed →
      ∃ j rr, k' ≤ j ∧ attemptOutcome oc file j = AttemptOutcome.pass rr ∧
        clearsThreshold ctx.threshold rr = true) ∧
    (∀ (queue : List String) (fs0 : FS) (f : String),
      f ∈ (runResult ctx oc queue fs0).fixed →
      ∃ j rr, 1 ≤ j ∧ attemptOutcome oc f j = AttemptOutcome.pass rr ∧
        clearsThreshold ctx.threshold rr = true) := by
  refine ⟨?_, ?_, ?_⟩
  · simp only [fileLoop, hpass, hlow, Bool.false_eq_true, if_false]
  · intro fuel' k' g' fs' h
    exact fileLoop_fixed_pass ctx oc file fuel' k' g' fs' h
  · intro queue fs0 f h
    rcases queueLoop_fixed_mem ctx oc queue ctx.maxIters
        ⟨fs0, 0, [], [], false⟩ f h with hmem | ⟨_, hex⟩
    · simp at hmem
    · exact hex

/-- Claim C4 witness: with collaborators whose every attempt passes at 10%
line coverage (below the 90 threshold), the pass is treated as a failure:
the loop consumes the attempt and recurses, and fixedness anywhere requires
a threshold-clearing pass. -/
theorem C4_fixed_requires_pass_and_threshold_witness :
    (attemptOutcome lowOracles "src/app/a.ts" 1
      = AttemptOutcome.pass lowRecord) ∧
    (clearsThreshold ctx0.threshold lowRecord = false) ∧
    ((fileLoop ctx0 lowOracles "src/app/a.ts" (2 + 1) 1 (3 + 1) []
      = ((fileLoop ctx0 lowOracles "src/app/a.ts" 2 (1 + 1) 3
          (attemptFs lowOracles [] "src/app/a.ts" 1)).1,
        (fileLoop ctx0 lowOracles "src/app/a.ts" 2 (1 + 1) 3
          (attemptFs lowOracles [] "src/app/a.ts" 1)).2.1 + 1,
        (fileLoop ctx0 lowOracles "src/app/a.ts" 2 (1 + 1) 3
          (attemptFs lowOracles [] "src/app/a.ts" 1)).2.2)) ∧
    (∀ (fuel' k' g' : Nat) (fs' : FS),
      (fileLoop ctx0 lowOracles "src/app/a.ts" fuel' k' g' fs').1
        = FileResult.fixed →
      ∃ j rr, k' ≤ j ∧
        attemptOutcome lowOracles "src/app/a.ts" j = AttemptOutcome.pass rr ∧
        clearsThreshold ctx0.threshold rr = true) ∧
    (∀ (queue : List String) (fs0 : FS) (f : String),
      f ∈ (runResult ctx0 lowOracles queue fs0).fixed →
      ∃ j rr, 1 ≤ j ∧
        attemptOutcome lowOracles f j = AttemptOutcome.pass rr ∧
        clearsThreshold ctx0.threshold rr = true)) :=
  ⟨rfl, by decide,
    C4_fixed_requires_pass_and_threshold ctx0 lowOracles "src/app/a.ts"
      2 1 3 [] lowRecord rfl (by decide)⟩

/-- Claim C5: file-scoped recoverable errors never abort the run — when the
toolchain never breaks the run ends non-fatal with every queued file fixed
or abandoned, and each recoverable outcome consumes exactly one attempt
while the loop continues — whereas `ToolchainError` aborts the run early: a
toolchain-error attempt ends the file loop immediately with a `fatal`
result after that single attempt, a `fatal` file result stops the queue
loop at once (the remaining queue is not processed at all — the result does
not depend on it — and the `fatal` flag is set), a fatal run is never a
success and exits 1; an unreadable report (`ReportUnreadable`) aborts
before any attempt with exit code 1; and the exit code is 0 exactly when
the final run status is success. -/
theorem C5_error_propagation (ctx : Ctx) (oc : Oracles) (queue : List String)
    (fs0 : FS) (R : List CoverageRecord) (sources : List String) :
    ((∀ f c, oc.validateOutcome f c ≠ ValidateResult.toolchainError) →
      (runResult ctx oc queue fs0).fatal = false ∧
      (∀ f, f ∈ queue → f ∈ (runResult ctx oc queue fs0).fixed ∨
        f ∈ (runResult ctx oc queue fs0).abandoned)) ∧
    (∀ (file : String) (k fuel g : Nat) (fs1 : FS),
      recoverableErr (attemptOutcome oc file k) = true →
      (fileLoop ctx oc file (fuel + 1) k (g + 1) fs1).2.1
        = (fileLoop ctx oc file fuel (k + 1) g
            (attemptFs oc fs1 file k)).2.1 + 1) ∧
    (∀ (file : String) (k fuel g : Nat) (fs1 : FS),
      attemptOutcome oc file k = AttemptOutcome.toolchainError →
      fileLoop ctx oc file (fuel + 1) k (g + 1) fs1
        = (FileResult.fatal, 1, attemptFs oc fs1 file k)) ∧
    (∀ (f : String) (rest : List String) (g : Nat) (st : RunState),
      g ≠ 0 →
      (fileLoop ctx oc f ctx.perFileBudget 1 g st.fs).1
        = FileResult.fatal →
      queueLoop ctx oc (f :: rest) g st
        = { st with
            fs := (fileLoop ctx oc f ctx.perFileBudget 1 g st.fs).2.2
            attemptsUsed := st.attemptsUsed
              + (fileLoop ctx oc f ctx.perFileBudget 1 g st.fs).2.1
            fatal := true }) ∧
    (∀ st : RunState, st.fatal = true → runSuccess st = false) ∧
    ((runResult ctx oc ((selectDeficiencies sources R ctx.threshold).map
        (fun d => d.path)) fs0).fatal = true →
      mainExit ctx oc (some R) sources fs0 = 1) ∧
    (mainExit ctx oc (some R) sources fs0 = 0 ↔
      runSuccess (runResult ctx oc
        ((selectDeficiencies sources R ctx.threshold).map
          (fun d => d.path)) fs0) = true) ∧
    mainExit ctx oc none sources fs0 = 1 := by
  refine ⟨?_, ?_, ?_, ?_, ?_, ?_, ?_, rfl⟩
  · intro hn
    constructor
    · exact queueLoop_not_fatal ctx hn queue ctx.maxIters _ rfl
    · intro f hf
      exact queueLoop_processes ctx hn queue ctx.maxIters _ f hf
  · intro file k fuel g fs1 hrec
    cases ho : attemptOutcome oc file k with
    | pass r => rw [ho] at hrec; simp [recoverableErr] at hrec
    | toolchainError => rw [ho] at hrec; simp [recoverableErr] at hrec
    | inferenceUnavailable => simp [fileLoop, ho]
    | inferenceEmpty => simp [fileLoop, ho]
    | candidateMalformed => simp [fileLoop, ho]
    | fail d => simp [fileLoop, ho]
  · intro file k fuel g fs1 htc
    simp only [fileLoop, htc]
  · intro f rest g st hg hfat
    simp only [queueLoop]
    rw [if_neg hg, hfat]
  · intro st h
    simp [runSuccess, h]
  · intro h
    have hs : runSuccess (runResult ctx oc
        ((selectDeficiencies sources R ctx.threshold).map
          (fun d => d.path)) fs0) = false := by
      simp [runSuccess, h]
    show (if runSuccess (runResult ctx oc
        ((selectDeficiencies sources R ctx.threshold).map
          (fun d => d.path)) fs0) = true then 0 else 1) = 1
    rw [hs]
    simp
  · show (if runSuccess (runResult ctx oc
        ((selectDeficiencies sources R ctx.threshold).map
          (fun d => d.path)) fs0) = true then 0 else 1) = 0 ↔ _
    by_cases hs : runSuccess (runResult ctx oc
        ((selectDeficiencies sources R ctx.threshold).map
          (fun d => d.path)) fs0) = true
    · simp [hs]
    · simp [hs]

/-- Claim C5 witness: with collaborators that always pass above threshold
(no toolchain breakdown) the run on `["src/app/a.ts"]` is non-fatal and
processes the file; with collaborators whose toolchain is broken, attempt 1
on `src/app/a.ts` is a `ToolchainError`, the file loop ends fatal after
that one attempt, the queue loop on a two-file queue aborts at the first
file (result independent of the second file, fatal flag set), and a fatal
state is never a success. -/
theorem C5_error_propagation_witness :
    ((runResult ctx0 okOracles ["src/app/a.ts"] []).fatal = false ∧
      (∀ f, f ∈ ["src/app/a.ts"] →
        f ∈ (runResult ctx0 okOracles ["src/app/a.ts"] []).fixed ∨
        f ∈ (runResult ctx0 okOracles ["src/app/a.ts"] []).abandoned)) ∧
    (attemptOutcome badOracles "src/app/a.ts" 1
      = AttemptOutcome.toolchainError) ∧
    (fileLoop ctx0 badOracles "src/app/a.ts" (2 + 1) 1 (3 + 1) []
      = (FileResult.fatal, 1, attemptFs badOracles [] "src/app/a.ts" 1)) ∧
    (queueLoop ctx0 badOracles ("src/app/a.ts" :: ["src/app/b.ts"]) 10
        ⟨[], 0, [], [], false⟩
      = { (⟨[], 0, [], [], false⟩ : RunState) with
          fs := (fileLoop ctx0 badOracles "src/app/a.ts" ctx0.perFileBudget
            1 10 ((⟨[], 0, [], [], false⟩ : RunState)).fs).2.2
          attemptsUsed := ((⟨[], 0, [], [], false⟩ : RunState)).attemptsUsed
            + (fileLoop ctx0 badOracles "src/app/a.ts" ctx0.perFileBudget
              1 10 ((⟨[], 0, [], [], false⟩ : RunState)).fs).2.1
          fatal := true }) ∧
    (∀ st : RunState, st.fatal = true → runSuccess st = false) :=
  ⟨(C5_error_propagation ctx0 okOracles ["src/app/a.ts"] [] [sampleRecord]
      ["src/app/a.ts"]).1 (fun _ _ h => ValidateResult.noConfusion h),
    rfl,
    (C5_error_propagation ctx0 badOracles [] [] [] []).2.2.1
      "src/app/a.ts" 1 2 3 [] rfl,
    (C5_error_propagation ctx0 badOracles [] [] [] []).2.2.2.1
      "src/app/a.ts" ["src/app/b.ts"] 10 ⟨[], 0, [], [], false⟩
      (by decide) rfl,
    (C5_error_propagation ctx0 badOracles [] [] [] []).2.2.2.2.1⟩

/-- Claim C6: when the Post-Processor rejects the synthesized candidate as
malformed, the attempt outcome is `CandidateMalformed`, the Validator is
not invoked, nothing at all is written to disk for that attempt, and the
controller proceeds directly to the retry decision with the attempt still
counted against the budget. -/
theorem C6_malformed_skips_validator (ctx : Ctx) (oc : Oracles)
    (file raw : String) (k fuel g : Nat) (fs : FS)
    (h1 : oc.synth file k = SynthResult.ok raw)
    (h2 : oc.postProcess raw = PostResult.malformed) :
    attemptOutcome oc file k = AttemptOutcome.candidateMalformed ∧
    validatorInvoked oc file k = false ∧
    attemptFs oc fs file k = fs ∧
    (fileLoop ctx oc file (fuel + 1) k (g + 1) fs
      = ((fileLoop ctx oc file fuel (k + 1) g fs).1,
        (fileLoop ctx oc file fuel (k + 1) g fs).2.1 + 1,
        (fileLoop ctx oc file fuel (k + 1) g fs).2.2)) := by
  have hout : attemptOutcome oc file k = AttemptOutcome.candidateMalformed := by
    unfold attemptOutcome
    rw [h1]
    dsimp only
    rw [h2]
  have hsc : synthesizedCode oc file k = none := by
    unfold synthesizedCode
    rw [h1]
    dsimp only
    rw [h2]
  have hfs : attemptFs oc fs file k = fs := by
    unfold attemptFs
    rw [hsc]
  refine ⟨hout, ?_, hfs, ?_⟩
  · unfold validatorInvoked
    rw [hsc]
    rfl
  · simp only [fileLoop, hout, hfs]

/-- Claim C6 witness: with a Post-Processor that rejects every candidate,
attempt 1 on `src/app/a.ts` is `CandidateMalformed`, skips the Validator,
writes nothing, and is counted while the loop retries. -/
theorem C6_malformed_skips_validator_witness :
    (malformedOracles.synth "src/app/a.ts" 1 = SynthResult.ok "prose") ∧
    (malformedOracles.postProcess "prose" = PostResult.malformed) ∧
    (attemptOutcome malformedOracles "src/app/a.ts" 1
      = AttemptOutcome.candidateMalformed ∧
    validatorInvoked malformedOracles "src/app/a.ts" 1 = false ∧
    attemptFs malformedOracles [] "src/app/a.ts" 1 = [] ∧
    (fileLoop ctx0 malformedOracles "src/app/a.ts" (2 + 1) 1 (3 + 1) []
      = ((fileLoop ctx0 malformedOracles "src/app/a.ts" 2 (1 + 1) 3 []).1,
        (fileLoop ctx0 malformedOracles "src/app/a.ts" 2 (1 + 1) 3 []).2.1
          + 1,
        (fileLoop ctx0 malformedOracles "src/app/a.ts" 2 (1 + 1) 3
          []).2.2))) :=
  ⟨rfl, rfl,
    C6_malformed_skips_validator ctx0 malformedOracles "src/app/a.ts"
      "prose" 1 2 3 [] rfl rfl⟩

end AngularSmoke
